import Mathlib

/-!
Verification of the review orchestration engine of the CodeReviewerPro
editor extension.

The embedding below models, in Lean, the JavaScript source of the
repository:

* `GeminiReviewer` (src/geminiReviewer.js): the tool definitions and the
  tool executor (`executeToolFunction`, `readFile`, `listDirectory`,
  `_walkDirectory`, `findFile`), the tool-call loop of `reviewCode`, the
  response parser `parseReview`, and the fenced-code cleanup performed by
  `generateFixedCode` on the model's returned text.
* `reviewWorkspace` (src/extension.js): the batch orchestrator that walks
  an ordered list of files, reviews each in turn, applies fixes on demand,
  and honours cooperative cancellation.

JavaScript strings are modelled as `String` / `List Char` (the inputs of
interest are ASCII, so `toLowerCase` is modelled as ASCII lowering and
`substring` by character count); promise-returning functions are modelled
as pure functions, a thrown exception as the `Except.error` branch of an
input; the remote model and the file system are abstract inputs.
-/

namespace CodeReviewer

/-! ### Character and string primitives mirroring the JavaScript operations -/

/-- Whitespace for `String.prototype.trim` (the ASCII part). -/
def isWsChar (c : Char) : Bool :=
  c = ' ' || c = '\t' || c = '\n' || c = '\r' || c = '\x0b' || c = '\x0c'

/-- ASCII case lowering, the fragment of `toLowerCase` / the regex `i` flag
that the source's vocabulary exercises. -/
def asciiLower (c : Char) : Char :=
  if 'A' ≤ c && c ≤ 'Z' then Char.ofNat (c.toNat + 32) else c

/-- `s.toLowerCase()` on ASCII text. -/
def lowerStr (l : List Char) : List Char := l.map asciiLower

/-- Leading whitespace removal (first half of `trim`). -/
def dropLeadingWs (l : List Char) : List Char := l.dropWhile isWsChar

/-- Trailing whitespace removal (second half of `trim`). -/
def dropTrailingWs : List Char → List Char
  | [] => []
  | c :: t =>
    match dropTrailingWs t with
    | [] => if isWsChar c then [] else [c]
    | t' => c :: t'

/-- `s.trim()`. -/
def trimStr (l : List Char) : List Char := dropTrailingWs (dropLeadingWs l)

/-- `s.startsWith(p)`: first argument the sought prefix, second the string. -/
def startsWithStr : List Char → List Char → Bool
  | [], _ => true
  | _ :: _, [] => false
  | p :: ps, c :: cs => p = c && startsWithStr ps cs

/-- `l.includes(p)`: substring containment. -/
def containsStr : List Char → List Char → Bool
  | l, p =>
    if startsWithStr p l then true
    else
      match l with
      | [] => false
      | _ :: t => containsStr t p

/-- `reviewText.split('\n')`. -/
def splitLines : List Char → List (List Char)
  | [] => [[]]
  | '\n' :: rest => [] :: splitLines rest
  | c :: rest =>
    match splitLines rest with
    | h :: t => (c :: h) :: t
    | [] => [[c]]

/-- Space-joining of accumulated summary lines: the parser's
`review.summary += (review.summary ? ' ' : '') + line` appends lines with
single-space separators, which is this join. -/
def joinSp : List (List Char) → List Char
  | [] => []
  | [x] => x
  | x :: xs => x ++ ' ' :: joinSp xs

/-! ### The `Review` record and the response parser (`parseReview`) -/

/-- The structured review produced by `parseReview`
(src/geminiReviewer.js lines 305-349). -/
structure Review where
  summary : String
  issues : List String
  suggestions : List String
  canAutoFix : Bool
  rawText : String
deriving DecidableEq, Repr

/-- The parser's current section ("currentSection" in the source). -/
inductive ReviewSection
  | summary
  | issues
  | suggestions
deriving DecidableEq, Repr

/-- How one trimmed non-blank line is treated by the `if`/`else if` chain of
`parseReview` (lines 324-336): as a section header, as the auto-fix marker
line, or as content of the current section. -/
inductive LineClass
  | header (sec : ReviewSection)
  | autoFixMarker (affirmative : Bool)
  | content
deriving DecidableEq, Repr

/-- The header/marker vocabulary of `parseReview`, in source order: the
summary triggers are tested first, then issues, then suggestions, then the
auto-fix marker; everything else is content. -/
def classifyLine (line : List Char) : LineClass :=
  let lower := lowerStr line
  if containsStr lower "overall assessment".data || containsStr lower "summary".data ||
      startsWithStr "overall:".data lower then
    .header .summary
  else if containsStr lower "issues found".data || containsStr lower "issues:".data ||
      startsWithStr "bugs".data lower then
    .header .issues
  else if containsStr lower "suggestions".data || containsStr lower "improvements".data ||
      startsWithStr "suggestion".data lower then
    .header .suggestions
  else if containsStr lower "can auto-fix".data || containsStr lower "automatically fix".data then
    .autoFixMarker (containsStr lower "yes".data || containsStr lower "true".data)
  else
    .content

/-- The parser's loop state: current section plus the accumulators.
`summaryParts` keeps the lines space-joined into `review.summary`. -/
structure ParseState where
  currentSection : ReviewSection
  summaryParts : List (List Char)
  issues : List (List Char)
  suggestions : List (List Char)
  canAutoFix : Bool
deriving DecidableEq, Repr

def initParseState : ParseState :=
  { currentSection := .summary, summaryParts := [], issues := [], suggestions := []
    canAutoFix := false }

/-- One iteration of `for (const rawLine of lines)` in `parseReview`:
trim, skip blanks, classify, and either switch section, set the auto-fix
flag, or append to the current section's accumulator. -/
def parseStep (st : ParseState) (rawLine : List Char) : ParseState :=
  let line := trimStr rawLine
  if line.isEmpty then st
  else
    match classifyLine line with
    | .header sec => { st with currentSection := sec }
    | .autoFixMarker affirmative =>
      if affirmative then { st with canAutoFix := true } else st
    | .content =>
      match st.currentSection with
      | .summary => { st with summaryParts := st.summaryParts ++ [line] }
      | .issues => { st with issues := st.issues ++ [line] }
      | .suggestions => { st with suggestions := st.suggestions ++ [line] }

/-- The whole line scan of `parseReview`, before the summary fallback. -/
def parseReviewScan (reviewText : List Char) : ParseState :=
  (splitLines reviewText).foldl parseStep initParseState

/-- `GeminiReviewer.parseReview` (lines 305-349): scan the lines, then
`review.summary = (review.summary || '').trim() || reviewText.substring(0, 200).trim()`. -/
def parseReview (reviewText : String) : Review :=
  let st := parseReviewScan reviewText.data
  let acc := trimStr (joinSp st.summaryParts)
  { summary := String.mk (if acc.isEmpty then trimStr (reviewText.data.take 200) else acc)
    issues := st.issues.map String.mk
    suggestions := st.suggestions.map String.mk
    canAutoFix := st.canAutoFix
    rawText := reviewText }

/-! ### The consumption-site auto-fix decision -/

/-- `reviewWorkspace` (src/extension.js lines 615-617):
`review.canAutoFix || (Array.isArray(review.suggestions) && review.suggestions.length > 0)`
(in the embedding `suggestions` is always a list, so `Array.isArray` holds). -/
def autoFixAvailable (review : Review) : Bool :=
  review.canAutoFix || decide (0 < review.suggestions.length)

/-! ### `generateFixedCode`'s post-processing of the model's returned text

`let fixedCode = text.replace(/```[a-z]*\n?/gi, '').replace(/```/g, '').trim();`
(src/geminiReviewer.js line 387). Each `replace` is a single left-to-right
scan removing non-overlapping matches, which is the recursion below. -/

/-- `[a-z]` with the `i` flag: an ASCII letter. -/
def isAsciiLetter (c : Char) : Bool :=
  ('a' ≤ c && c ≤ 'z') || ('A' ≤ c && c ≤ 'Z')

/-- After a fence, the regex `[a-z]*\n?` greedily eats the language tag and
at most one newline. -/
def dropLangTag (l : List Char) : List Char :=
  match l.dropWhile isAsciiLetter with
  | '\n' :: t => t
  | t => t

theorem length_dropWhileLe (p : Char → Bool) (l : List Char) :
    (l.dropWhile p).length ≤ l.length := by
  induction l with
  | nil => simp
  | cons c t ih =>
    by_cases h : p c = true
    · simp [List.dropWhile, h]
      omega
    · simp [List.dropWhile, h]

theorem dropLangTag_length (l : List Char) : (dropLangTag l).length ≤ l.length := by
  have h : (l.dropWhile isAsciiLetter).length ≤ l.length := length_dropWhileLe isAsciiLetter l
  unfold dropLangTag
  split
  · rename_i t heq
    have := congrArg List.length heq
    simp at this
    omega
  · omega

/-- `text.replace(/```[a-z]*\n?/gi, '')`. -/
def stripFenceLang : List Char → List Char
  | '`' :: '`' :: '`' :: rest => stripFenceLang (dropLangTag rest)
  | c :: rest => c :: stripFenceLang rest
  | [] => []
termination_by l => l.length
decreasing_by
  · have := dropLangTag_length rest
    simp only [List.length_cons]
    omega
  · simp only [List.length_cons]
    omega

/-- `text.replace(/```/g, '')`. -/
def stripTriple : List Char → List Char
  | '`' :: '`' :: '`' :: rest => stripTriple rest
  | c :: rest => c :: stripTriple rest
  | [] => []

/-- The post-processing `generateFixedCode` applies to the raw text the
model returned for the fix prompt (line 387), yielding the fixed code. -/
def generateFixedCode (text : String) : String :=
  String.mk (trimStr (stripTriple (stripFenceLang text.data)))

/-! Lemmas: the cleaned text never contains three consecutive backticks. -/

/-- The three-backtick fence marker. -/
def tripleTick : List Char := ['`', '`', '`']

/-- Whether the fence marker occurs anywhere in the text. -/
def hasTripleTick : List Char → Bool
  | [] => false
  | c :: t => startsWithStr tripleTick (c :: t) || hasTripleTick t

/-- Count of leading backticks. -/
def leadTicks : List Char → Nat
  | '`' :: rest => leadTicks rest + 1
  | _ => 0

theorem leadTicks_cons_ne (c : Char) (t : List Char) (h : c ≠ '`') :
    leadTicks (c :: t) = 0 := by
  cases t <;> simp [leadTicks, h]

theorem leadTicks_cons_tick (t : List Char) : leadTicks ('`' :: t) = leadTicks t + 1 := by
  cases t <;> simp [leadTicks]

theorem startsWith_triple_iff (l : List Char) :
    startsWithStr tripleTick l = true ↔ 3 ≤ leadTicks l := by
  match l with
  | [] => simp [startsWithStr, tripleTick, leadTicks]
  | [a] =>
    by_cases h : a = '`' <;>
      simp [startsWithStr, tripleTick, leadTicks, h, leadTicks_cons_ne, leadTicks_cons_tick]
  | [a, b] =>
    by_cases ha : a = '`' <;> by_cases hb : b = '`' <;>
      simp_all [startsWithStr, tripleTick, leadTicks_cons_ne, leadTicks_cons_tick, leadTicks,
        eq_comm]
  | a :: b :: c :: t =>
    by_cases ha : a = '`' <;> by_cases hb : b = '`' <;> by_cases hc : c = '`' <;>
      simp_all [startsWithStr, tripleTick, leadTicks_cons_ne, leadTicks_cons_tick, eq_comm]

theorem leadTicks_append_le (x y : List Char) : leadTicks x ≤ leadTicks (x ++ y) := by
  induction x with
  | nil => simp [leadTicks]
  | cons d s ih =>
    by_cases hd : d = '`'
    · subst hd
      simp only [List.cons_append, leadTicks_cons_tick]
      omega
    · simp [leadTicks_cons_ne d _ hd]

theorem leadTicks_le_one (rest : List Char)
    (h : ∀ x : List Char, rest = '`' :: '`' :: x → False) : leadTicks rest ≤ 1 := by
  match rest with
  | [] => simp [leadTicks]
  | c' :: rest' =>
    by_cases hc' : c' = '`'
    · subst hc'
      match rest' with
      | [] => simp [leadTicks]
      | c'' :: rest'' =>
        by_cases hc'' : c'' = '`'
        · subst hc''; exact (h rest'' rfl).elim
        · simp [leadTicks_cons_tick, leadTicks_cons_ne c'' rest'' hc'']
    · simp [leadTicks_cons_ne c' rest' hc']

theorem stripTriple_leadTicks (l : List Char) :
    leadTicks (stripTriple l) = leadTicks l % 3 := by
  induction l using stripTriple.induct with
  | case1 rest ih =>
    simp only [stripTriple, leadTicks_cons_tick, ih]
    omega
  | case2 c rest h ih =>
    by_cases hc : c = '`'
    · subst hc
      have hrest : leadTicks rest ≤ 1 := leadTicks_le_one rest (fun x hx => h x rfl hx)
      simp only [stripTriple, leadTicks_cons_tick, ih]
      omega
    · simp [stripTriple, leadTicks_cons_ne c _ hc, leadTicks_cons_ne c (stripTriple rest) hc]
  | case3 => simp [stripTriple, leadTicks]

theorem stripTriple_noTriple (l : List Char) : hasTripleTick (stripTriple l) = false := by
  induction l using stripTriple.induct with
  | case1 rest ih => simpa [stripTriple] using ih
  | case2 c rest h ih =>
    simp only [stripTriple, hasTripleTick, Bool.or_eq_false_iff]
    refine ⟨?_, ih⟩
    rw [Bool.eq_false_iff]
    intro hsw
    rw [startsWith_triple_iff] at hsw
    by_cases hc : c = '`'
    · subst hc
      rw [leadTicks_cons_tick, stripTriple_leadTicks] at hsw
      have hle : leadTicks rest ≤ 1 := leadTicks_le_one rest (fun x hx => h x rfl hx)
      omega
    · rw [leadTicks_cons_ne c _ hc] at hsw
      omega
  | case3 => simp [stripTriple, hasTripleTick]

theorem hasTripleTick_append (a b : List Char) (h : hasTripleTick a = true) :
    hasTripleTick (a ++ b) = true := by
  induction a with
  | nil => simp [hasTripleTick] at h
  | cons c t ih =>
    rw [List.cons_append]
    simp only [hasTripleTick, Bool.or_eq_true] at h ⊢
    rcases h with h | h
    · left
      rw [startsWith_triple_iff] at h ⊢
      have hle := leadTicks_append_le (c :: t) b
      rw [List.cons_append] at hle
      omega
    · right
      exact ih h

theorem dropLeadingWs_suffix (l : List Char) : ∃ m, l = m ++ dropLeadingWs l := by
  induction l with
  | nil => exact ⟨[], rfl⟩
  | cons c t ih =>
    by_cases h : isWsChar c = true
    · obtain ⟨m, hm⟩ := ih
      exact ⟨c :: m, by simp [dropLeadingWs, List.dropWhile, h] at hm ⊢; exact hm⟩
    · exact ⟨[], by simp [dropLeadingWs, List.dropWhile, h]⟩

theorem dropTrailingWs_prefixed (l : List Char) : ∃ m, l = dropTrailingWs l ++ m := by
  induction l with
  | nil => exact ⟨[], rfl⟩
  | cons c t ih =>
    obtain ⟨m, hm⟩ := ih
    by_cases h : (dropTrailingWs t) = []
    · by_cases hw : isWsChar c = true
      · exact ⟨c :: t, by simp [dropTrailingWs, h, hw]⟩
      · exact ⟨m, by simp [dropTrailingWs, h, hw]; rw [hm, h]; simp⟩
    · refine ⟨m, ?_⟩
      conv_lhs => rw [hm]
      match heq : dropTrailingWs t with
      | [] => exact absurd heq h
      | x :: xs => simp [dropTrailingWs, heq]

theorem hasTripleTick_prefix_of_append (a b : List Char)
    (h : hasTripleTick (a ++ b) = false) : hasTripleTick a = false := by
  by_contra hc
  rw [Bool.not_eq_false] at hc
  rw [hasTripleTick_append a b hc] at h
  cases h

theorem hasTripleTick_suffix_of_append (a b : List Char)
    (h : hasTripleTick (a ++ b) = false) : hasTripleTick b = false := by
  induction a with
  | nil => simpa using h
  | cons c t ih =>
    apply ih
    simp only [List.cons_append, hasTripleTick, Bool.or_eq_false_iff] at h
    exact h.2

theorem trimStr_noTriple (l : List Char) (h : hasTripleTick l = false) :
    hasTripleTick (trimStr l) = false := by
  unfold trimStr
  obtain ⟨m, hm⟩ := dropLeadingWs_suffix l
  rw [hm] at h
  have h1 : hasTripleTick (dropLeadingWs l) = false := hasTripleTick_suffix_of_append m _ h
  obtain ⟨m2, hm2⟩ := dropTrailingWs_prefixed (dropLeadingWs l)
  rw [hm2] at h1
  exact hasTripleTick_prefix_of_append _ m2 h1

/-! ### The tool executor

`readFile`, `listDirectory`, `_walkDirectory`, `findFile` and
`executeToolFunction` of `GeminiReviewer` (src/geminiReviewer.js lines
90-219). The Node file system is an abstract input: `readResult` is what
`fs.readFile` yields for a path (content, or the thrown error's message),
`readdirResult` what `fs.readdir` + per-entry `fs.stat` yield, and
`findRoot` the directory tree seen by `_walkDirectory` when it starts at a
given path. Every tool returns a value — the `try`/`catch` in each tool and
in `executeToolFunction` turns every failure into an error-shaped result. -/

/-- One entry of a `list_directory` result: `{name, isDirectory, size}` on
a successful stat, `{name, error: 'Cannot access'}` otherwise. -/
inductive DirEntryInfo
  | info (name : String) (isDirectory : Bool) (size : Nat)
  | accessErr (name : String)
deriving DecidableEq, Repr

/-- A directory tree: what the recursive walker finds on disk. -/
inductive FsEntry
  | file (name : String)
  | dir (name : String) (entries : List FsEntry)

/-- The abstract file system the tools run against. -/
structure FileSystem where
  readResult : String → Except String String
  readdirResult : String → Except String (List (String × Bool × Except String Nat))
  findRoot : String → List FsEntry

/-- The value a tool call produces: the success shapes of the three tools,
the `{success: false, error}` shape, and the plain
`Error: Unknown function …` string of the `default` branch. -/
inductive ToolResult
  | readOk (path content : String) (size : Nat)
  | listOk (directory : String) (files : List DirEntryInfo)
  | findOk (pattern : String) (found : List String)
  | toolError (error : String)
  | unknownFunction (message : String)
deriving DecidableEq, Repr

/-- Tool `read_file` (lines 113-128). `size` is `content.length`. -/
def readFile (fs : FileSystem) (filePath : String) : ToolResult :=
  match fs.readResult filePath with
  | .ok content => .readOk filePath content content.length
  | .error e => .toolError ("Cannot read file: " ++ e)

/-- Tool `list_directory` (lines 133-162): per-entry stat failures degrade
that entry to an error marker; a failed `readdir` fails the whole call. -/
def listDirectory (fs : FileSystem) (dirPath : String) : ToolResult :=
  match fs.readdirResult dirPath with
  | .ok entries =>
    .listOk dirPath (entries.map fun ent =>
      match ent.2.2 with
      | .ok size => .info ent.1 ent.2.1 size
      | .error _ => .accessErr ent.1)
  | .error e => .toolError ("Cannot list directory: " ++ e)

/-- The walker's skip test
`/(node_modules|\.git|dist|build|coverage|venv|\.next|\.nuxt)/i.test(entry.name)`:
an unanchored, case-insensitive substring search on the directory name. -/
def heavyDirName (name : String) : Bool :=
  let n := lowerStr name.data
  containsStr n "node_modules".data || containsStr n ".git".data ||
    containsStr n "dist".data || containsStr n "build".data ||
    containsStr n "coverage".data || containsStr n "venv".data ||
    containsStr n ".next".data || containsStr n ".nuxt".data

/-- `path.join(base, name)` for the paths the walker builds (with `/` as
separator and `.` collapsing, the cases that arise). -/
def joinPath (base name : String) : String :=
  if base = "." then name else base ++ "/" ++ name

mutual

/-- `_walkDirectory`'s inner `walker` (lines 169-188) over one entry:
a file is pushed; a non-heavy directory is recursed into. -/
def walkOne (maxFiles : Nat) (base : String) : FsEntry → List String → List String
  | .file name, acc => acc ++ [joinPath base name]
  | .dir name sub, acc =>
    if heavyDirName name then acc
    else walkEntries maxFiles (joinPath base name) sub acc

/-- `walker`'s `for (const entry of entries)` loop with its
`results.length >= maxFiles` break before each entry. -/
def walkEntries (maxFiles : Nat) (base : String) : List FsEntry → List String → List String
  | [], acc => acc
  | e :: rest, acc =>
    if maxFiles ≤ acc.length then acc
    else walkEntries maxFiles base rest (walkOne maxFiles base e acc)

end

/-- `path.basename`: the last `/`-separated component. -/
def basenameAux : List Char → List Char → List Char
  | cur, [] => cur
  | _, '/' :: t => basenameAux [] t
  | cur, c :: t => basenameAux (cur ++ [c]) t

def basenameOf (p : String) : String := String.mk (basenameAux [] p.data)

/-- The regex `.` without the `s` flag: any character except a line
terminator. -/
def isDotChar (c : Char) : Bool := c ≠ '\n' && c ≠ '\r'

/-- The anchored, case-insensitive regex `findFile` builds from its
pattern (lines 202-205): every character is escaped to a literal except
`*` (which becomes `.*`) and `?` (which becomes `.`); the whole pattern is
wrapped in `^…$` and compiled with the `i` flag, then tested against a
basename. -/
def globMatch : List Char → List Char → Bool
  | [], [] => true
  | [], _ :: _ => false
  | '*' :: ps, s =>
    globMatch ps s ||
      (match s with
       | [] => false
       | c :: rest => isDotChar c && globMatch ('*' :: ps) rest)
  | '?' :: _, [] => false
  | '?' :: ps, c :: rest => isDotChar c && globMatch ps rest
  | _ :: _, [] => false
  | p :: ps, c :: rest => asciiLower p = asciiLower c && globMatch ps rest
termination_by p s => (p.length, s.length)

/-- Tool `find_file` (lines 196-219): walk the directory (bounded at 5000
files), convert the glob to the anchored case-insensitive regex, and keep
the files whose basename matches. `directory || '.'` supplies the default
root. -/
def findFile (fs : FileSystem) (pattern : String) (directory : Option String) : ToolResult :=
  let dirToSearch :=
    match directory with
    | some d => if d = "" then "." else d
    | none => "."
  let allFiles := walkEntries 5000 dirToSearch (fs.findRoot dirToSearch) []
  .findOk pattern (allFiles.filter fun f => globMatch pattern.data (basenameOf f).data)

/-- The arguments object of a tool call; each field may be absent. -/
structure ToolArgs where
  filePath : Option String
  directoryPath : Option String
  pattern : Option String
  directory : Option String
deriving DecidableEq, Repr

/-- `executeToolFunction` (lines 90-108): dispatch on the function name;
unknown names return the `Error: Unknown function …` string; a missing
required argument makes the underlying call fail, which each tool's
`catch` converts to an error result. It never throws. -/
def executeToolFunction (fs : FileSystem) (functionName : String) (args : ToolArgs) :
    ToolResult :=
  if functionName = "read_file" then
    match args.filePath with
    | some p => readFile fs p
    | none => .toolError "Cannot read file: file_path is not defined"
  else if functionName = "list_directory" then
    match args.directoryPath with
    | some p => listDirectory fs p
    | none => .toolError "Cannot list directory: directory_path is not defined"
  else if functionName = "find_file" then
    match args.pattern with
    | some pat => findFile fs pat args.directory
    | none => .toolError "Cannot search files: pattern is not defined"
  else
    .unknownFunction ("Error: Unknown function " ++ functionName)

/-! ### The tool-call loop of `reviewCode` (lines 254-295)

The chat with the remote model is an abstract input: `initial` is the
response to the first `sendMessage(prompt)`, and `next n batch` the
response to the (n+1)-th `sendMessage(functionResponses)`. A response's
`functionCalls` field is `some calls` when the JavaScript truthiness test
`response && response.functionCalls` passes (note `some []` is truthy:
an empty array still iterates the loop), `none` otherwise. -/

/-- One tool call requested by the model: `{name, args}`. -/
structure ToolCall where
  name : String
  args : ToolArgs
deriving DecidableEq, Repr

/-- One model response, reduced to the fields `reviewCode` consumes. -/
structure ModelResponse where
  functionCalls : Option (List ToolCall)
  text : String
deriving DecidableEq, Repr

/-- The entry pushed for each call: `{name: call.name, result: functionResult}`. -/
structure FunctionResponse where
  name : String
  result : ToolResult
deriving DecidableEq, Repr

/-- The `for (const call of functionCalls)` body (lines 275-284): execute
each requested call in request order and push one response per call. -/
def collectFunctionResponses (fs : FileSystem) (calls : List ToolCall) :
    List FunctionResponse :=
  calls.foldl
    (fun acc call => acc ++ [⟨call.name, executeToolFunction fs call.name call.args⟩]) []

/-- What one run of the `while` loop produces: the final iteration count,
the response whose text goes to the parser, and — for each follow-up
exchange — the calls the model requested and the batch of results sent
back to it. -/
structure LoopResult where
  iterations : Nat
  finalResponse : ModelResponse
  turns : List (List ToolCall × List FunctionResponse)
deriving DecidableEq, Repr

/-- The `while (response && response.functionCalls && iterations < maxIterations)`
loop of `reviewCode` (lines 265-289), with `maxIterations = 6`. -/
def toolLoop (fs : FileSystem) (next : Nat → List FunctionResponse → ModelResponse)
    (response : ModelResponse) (iterations : Nat)
    (turns : List (List ToolCall × List FunctionResponse)) : LoopResult :=
  match response.functionCalls with
  | some calls =>
    if iterations < 6 then
      let functionResponses := collectFunctionResponses fs calls
      toolLoop fs next (next iterations functionResponses) (iterations + 1)
        (turns ++ [(calls, functionResponses)])
    else
      { iterations := iterations, finalResponse := response, turns := turns }
  | none => { iterations := iterations, finalResponse := response, turns := turns }
termination_by 6 - iterations

/-- `reviewCode` after the initial send (lines 261-294): run the tool-call
loop from the initial response with `iterations = 0`, then hand the final
response's text, trimmed, to `parseReview`. -/
def reviewCode (fs : FileSystem) (next : Nat → List FunctionResponse → ModelResponse)
    (initial : ModelResponse) : Review × LoopResult :=
  let r := toolLoop fs next initial 0 []
  (parseReview (String.mk (trimStr r.finalResponse.text.data)), r)

/-! ### The batch orchestrator `reviewWorkspace` (src/extension.js lines 577-673)

Inputs are abstract: each file brings the outcome of opening it
(`openResult`: the document text, or the thrown error's message), the
outcome of `geminiReviewer.reviewCode` (`reviewResult`: a `Review`, or the
thrown error's message), the user's answer to the apply-fixes prompt
(`choice`), and the outcome of `applyFixesToFile` (`applyResult`).
Cancellation is the value of the token checks: `cancelTop i` is
`token.isCancellationRequested || cts.token.isCancellationRequested` at the
top of iteration `i` (line 585), `cancelSend i` the same re-check before
sending to the API (line 599). The output-channel log is the list of
`appendLine`d strings; `modelCalls` records the indices of the files for
which `reviewCode` was invoked (so every model call and hence every tool
call belongs to a listed file). -/

deriving instance DecidableEq for Except

structure FileSpec where
  path : String
  openResult : Except String String
  reviewResult : Except String Review
  choice : Option String
  applyResult : Except String Unit
deriving DecidableEq, Repr

structure BatchState where
  reviewedCount : Nat
  applyAll : Bool
  log : List String
  modelCalls : List Nat
deriving DecidableEq, Repr

/-- `'-'.repeat(80)` (line 597). -/
def dashSep : String := String.mk (List.replicate 80 '-')

/-- The suggestion report (lines 608-613). -/
def suggestionLines (review : Review) : List String :=
  if 0 < review.suggestions.length then
    "\n💡 SUGGESTIONS:\n" ::
      (review.suggestions.enum.map fun p => toString (p.1 + 1) ++ ". " ++ p.2)
  else []

/-- The apply-fixes block (lines 619-650): prompt unless `applyAll` is
already set; apply on "Apply Fixes" (or in apply-all mode), set the sticky
flag and apply on "Apply All", otherwise log a skip. `applyFixesToFile`
failures are caught and logged here, so they never escape the block.
Returns the new `applyAll` flag and the lines logged. -/
def applyBlock (file : FileSpec) (review : Review) (applyAll : Bool) :
    Bool × List String :=
  if autoFixAvailable review then
    let applyChoice : Option String := if !applyAll then file.choice else some "Apply Fixes"
    if applyChoice = some "Apply Fixes" || applyAll then
      match file.applyResult with
      | .ok _ => (applyAll, ["✅ Applied fixes to " ++ file.path])
      | .error e => (applyAll, ["❌ Failed to apply fixes to " ++ file.path ++ ": " ++ e])
    else if applyChoice = some "Apply All" then
      match file.applyResult with
      | .ok _ => (true, ["✅ Applied fixes to " ++ file.path ++ " (Apply All mode)"])
      | .error e => (true, ["❌ Failed to apply fixes to " ++ file.path ++ ": " ++ e])
    else
      (applyAll, ["⏭️ Skipped applying fixes for " ++ file.path])
  else (applyAll, [])

/-- The `for (let i = 0; i < files.length; i++)` loop of
`reviewWorkspace` (lines 584-657): cancellation check, open, header log,
re-check before the API send, review, report, apply block, and
`reviewedCount++`; the `catch` at lines 654-656 logs
`❌ Error reviewing file: ${error.message}` and continues with the next
file. A `break` returns the state as-is. The summary report
`review.summary || String(review)` (line 606) is modelled as
`review.summary`. -/
def runBatchAux (total : Nat) (cancelTop cancelSend : Nat → Bool) :
    List FileSpec → Nat → BatchState → BatchState
  | [], _, st => st
  | f :: rest, i, st =>
    if cancelTop i then
      { st with log := st.log ++ ["\n⚠️ Review cancelled by user."] }
    else
      match f.openResult with
      | .error e =>
        runBatchAux total cancelTop cancelSend rest (i + 1)
          { st with log := st.log ++ ["❌ Error reviewing file: " ++ e] }
      | .ok _code =>
        let st1 := { st with
          log := st.log ++
            ["\n📁 File " ++ toString (i + 1) ++ "/" ++ toString total ++ ": " ++
              basenameOf f.path, dashSep] }
        if cancelSend i then
          { st1 with log := st1.log ++ ["Cancellation requested before sending to API."] }
        else
          let st2 := { st1 with modelCalls := st1.modelCalls ++ [i] }
          match f.reviewResult with
          | .error e =>
            runBatchAux total cancelTop cancelSend rest (i + 1)
              { st2 with log := st2.log ++ ["❌ Error reviewing file: " ++ e] }
          | .ok review =>
            let st3 := { st2 with
              log := st2.log ++ [review.summary] ++ suggestionLines review }
            let ab := applyBlock f review st3.applyAll
            runBatchAux total cancelTop cancelSend rest (i + 1)
              { st3 with
                applyAll := ab.1
                log := st3.log ++ ab.2
                reviewedCount := st3.reviewedCount + 1 }

/-- `'='.repeat(80)` (lines 669-671). -/
def eqSep : String := String.mk (List.replicate 80 '=')

/-- `reviewWorkspace`'s batch over a file list: run the loop from a fresh
state, then log the final `✅ Review complete! Reviewed N files.` report
between its separators (lines 669-671). The banner logged before the loop
and the progress/sidebar UI calls are outside the modelled fragment. -/
def runBatch (files : List FileSpec) (cancelTop cancelSend : Nat → Bool) : BatchState :=
  let final := runBatchAux files.length cancelTop cancelSend files 0
    { reviewedCount := 0, applyAll := false, log := [], modelCalls := [] }
  { final with
    log := final.log ++
      ["\n" ++ eqSep,
       "✅ Review complete! Reviewed " ++ toString final.reviewedCount ++ " files.",
       eqSep] }

/-! ### Lemmas about the tool-call loop -/

theorem toolLoop_iterations_le (fs : FileSystem)
    (next : Nat → List FunctionResponse → ModelResponse) :
    ∀ (response : ModelResponse) (iterations : Nat)
      (turns : List (List ToolCall × List FunctionResponse)),
      iterations ≤ 6 → (toolLoop fs next response iterations turns).iterations ≤ 6 := by
  intro response iterations turns
  induction response, iterations, turns using toolLoop.induct fs next with
  | case1 response iterations turns calls hsome hlt fr ih =>
    intro _
    rw [toolLoop, hsome]
    simp only [hlt, if_true]
    exact ih (by omega)
  | case2 response iterations turns calls hsome hge =>
    intro hle
    rw [toolLoop, hsome]
    simp only [hge, if_false]
    exact hle
  | case3 response iterations turns hnone =>
    intro hle
    rw [toolLoop, hnone]
    exact hle

theorem toolLoop_saturates (fs : FileSystem)
    (next : Nat → List FunctionResponse → ModelResponse)
    (hn : ∀ n l, ((next n l).functionCalls).isSome = true) :
    ∀ (response : ModelResponse) (iterations : Nat)
      (turns : List (List ToolCall × List FunctionResponse)),
      iterations ≤ 6 → (response.functionCalls).isSome = true →
      (toolLoop fs next response iterations turns).iterations = 6 ∧
      (((toolLoop fs next response iterations turns).finalResponse.functionCalls).isSome
        = true) := by
  intro response iterations turns
  induction response, iterations, turns using toolLoop.induct fs next with
  | case1 response iterations turns calls hsome hlt fr ih =>
    intro _ _
    rw [toolLoop, hsome]
    simp only [hlt, if_true]
    exact ih (by omega) (hn _ _)
  | case2 response iterations turns calls hsome hge =>
    intro hle hresp
    rw [toolLoop, hsome]
    simp only [hge, if_false]
    exact ⟨by omega, hresp⟩
  | case3 response iterations turns hnone =>
    intro _ hresp
    rw [hnone] at hresp
    cases hresp

theorem toolLoop_turns_paired (fs : FileSystem)
    (next : Nat → List FunctionResponse → ModelResponse) :
    ∀ (response : ModelResponse) (iterations : Nat)
      (turns : List (List ToolCall × List FunctionResponse)),
      (∀ t ∈ turns, t.2 = collectFunctionResponses fs t.1) →
      ∀ t ∈ (toolLoop fs next response iterations turns).turns,
        t.2 = collectFunctionResponses fs t.1 := by
  intro response iterations turns
  induction response, iterations, turns using toolLoop.induct fs next with
  | case1 response iterations turns calls hsome hlt fr ih =>
    intro hturns
    rw [toolLoop, hsome]
    simp only [hlt, if_true]
    refine ih ?_
    intro t ht
    rcases List.mem_append.mp ht with h | h
    · exact hturns t h
    · rcases List.mem_singleton.mp h with rfl
      rfl
  | case2 response iterations turns calls hsome hge =>
    intro hturns
    rw [toolLoop, hsome]
    simp only [hge, if_false]
    exact hturns
  | case3 response iterations turns hnone =>
    intro hturns
    rw [toolLoop, hnone]
    exact hturns

theorem collectFunctionResponses_acc (fs : FileSystem) (calls : List ToolCall) :
    ∀ acc : List FunctionResponse,
      calls.foldl
        (fun acc call => acc ++ [⟨call.name, executeToolFunction fs call.name call.args⟩])
        acc =
      acc ++ calls.map (fun c => ⟨c.name, executeToolFunction fs c.name c.args⟩) := by
  induction calls with
  | nil => intro acc; simp
  | cons c t ih =>
    intro acc
    simp only [List.foldl_cons, List.map_cons, ih]
    simp

theorem collectFunctionResponses_eq_map (fs : FileSystem) (calls : List ToolCall) :
    collectFunctionResponses fs calls =
      calls.map (fun c => ⟨c.name, executeToolFunction fs c.name c.args⟩) := by
  unfold collectFunctionResponses
  simpa using collectFunctionResponses_acc fs calls []

/-! ### The claims -/

/-- Claim C1: for every file review, the tool-call loop in `reviewCode`
performs at most 6 follow-up exchanges; even against a model whose every
response contains tool-call requests the loop stops once the iteration
count reaches 6 and hands the last response's text — still containing
tool-call requests — to the parser, so `reviewCode` terminates (in the
embedding, `reviewCode` is a total function and the theorem bounds its
iteration count). -/
theorem c1_reviewCode_iteration_cap (fs : FileSystem)
    (next : Nat → List FunctionResponse → ModelResponse) (initial : ModelResponse) :
    (reviewCode fs next initial).2.iterations ≤ 6 ∧
    ((initial.functionCalls).isSome = true →
      (∀ n l, ((next n l).functionCalls).isSome = true) →
      (reviewCode fs next initial).2.iterations = 6 ∧
      (((reviewCode fs next initial).2.finalResponse.functionCalls).isSome = true) ∧
      (reviewCode fs next initial).1 =
        parseReview
          (String.mk (trimStr ((reviewCode fs next initial).2.finalResponse.text.data)))) := by
  refine ⟨toolLoop_iterations_le fs next initial 0 [] (by omega), ?_⟩
  intro hinit hn
  have h := toolLoop_saturates fs next hn initial 0 [] (by omega) hinit
  exact ⟨h.1, h.2, rfl⟩

/-- A file system on which every raw operation fails; used to instantiate
the universally quantified theorems. -/
def failFs : FileSystem where
  readResult := fun _ => .error "ENOENT"
  readdirResult := fun _ => .error "ENOENT"
  findRoot := fun _ => []

/-- Witness for C1: against a model that always requests tool calls
(`functionCalls` is `some []`, which is truthy), the loop runs exactly 6
follow-up exchanges. -/
theorem c1_reviewCode_iteration_cap_witness :
    (reviewCode failFs (fun _ _ => ⟨some [], "again"⟩) ⟨some [], "start"⟩).2.iterations = 6 :=
  ((c1_reviewCode_iteration_cap failFs (fun _ _ => ⟨some [], "again"⟩)
    ⟨some [], "start"⟩).2 rfl (fun _ _ => rfl)).1

/-- Claim C2: in every tool-call turn, exactly one function response is
collected per requested call, in request order (duplicates executed
independently, being mapped positionally), and the batch sent back to the
model before its next call is exactly that collection; unknown tool names
and failing executions still produce an error-shaped result because
`executeToolFunction` returns error values instead of throwing. -/
theorem c2_one_result_per_call (fs : FileSystem) (calls : List ToolCall) :
    (collectFunctionResponses fs calls).length = calls.length ∧
    collectFunctionResponses fs calls =
      calls.map (fun c => ⟨c.name, executeToolFunction fs c.name c.args⟩) ∧
    (∀ name args,
      name ∉ (["read_file", "list_directory", "find_file"] : List String) →
      executeToolFunction fs name args =
        .unknownFunction ("Error: Unknown function " ++ name)) ∧
    (∀ p e, fs.readResult p = .error e →
      executeToolFunction fs "read_file" ⟨some p, none, none, none⟩ =
        .toolError ("Cannot read file: " ++ e)) ∧
    (∀ next initial, ∀ t ∈ (reviewCode fs next initial).2.turns,
      t.2 = collectFunctionResponses fs t.1) := by
  refine ⟨?_, collectFunctionResponses_eq_map fs calls, ?_, ?_, ?_⟩
  · rw [collectFunctionResponses_eq_map]
    simp
  · intro name args hname
    simp only [List.mem_cons, List.mem_singleton] at hname
    push_neg at hname
    simp [executeToolFunction, hname.1, hname.2.1, hname.2.2]
  · intro p e hp
    simp [executeToolFunction, readFile, hp]
  · intro next initial
    exact toolLoop_turns_paired fs next initial 0 [] (by intro t ht; cases ht)

/-- Witness for C2: a duplicate pair of calls to an unknown tool yields
two independent error responses, one per call, in order. -/
theorem c2_one_result_per_call_witness :
    collectFunctionResponses failFs
        [⟨"zap", ⟨none, none, none, none⟩⟩, ⟨"zap", ⟨none, none, none, none⟩⟩] =
      [⟨"zap", .unknownFunction "Error: Unknown function zap"⟩,
       ⟨"zap", .unknownFunction "Error: Unknown function zap"⟩] := by
  have h := (c2_one_result_per_call failFs
    [⟨"zap", ⟨none, none, none, none⟩⟩, ⟨"zap", ⟨none, none, none, none⟩⟩])
  rw [h.2.1]
  have hz := h.2.2.1 "zap" ⟨none, none, none, none⟩ (by decide)
  simp [hz]

/-- Claim C3: the auto-fix decision computed at the consumption site is
true exactly when the parsed review's `canAutoFix` flag is true or its
suggestions list is non-empty. -/
theorem c3_autoFixAvailable_union (review : Review) :
    autoFixAvailable review = true ↔
      (review.canAutoFix = true ∨ review.suggestions ≠ []) := by
  unfold autoFixAvailable
  cases h : review.canAutoFix <;>
    simp [List.length_pos]

/-- Witness for C3: a review with empty suggestions but the explicit
marker set, and a review with suggestions but no marker, are both
auto-fixable. -/
theorem c3_autoFixAvailable_union_witness :
    autoFixAvailable
        { summary := "s", issues := [], suggestions := [], canAutoFix := true
          rawText := "r" } = true ∧
    autoFixAvailable
        { summary := "s", issues := [], suggestions := ["use const"], canAutoFix := false
          rawText := "r" } = true :=
  ⟨(c3_autoFixAvailable_union _).mpr (Or.inl rfl),
   (c3_autoFixAvailable_union _).mpr (Or.inr (by decide))⟩

/-- The raw text of the spec's round-trip example. -/
def roundTripInput : String :=
  "Overall Assessment: Looks fine.\nIssues Found:\nunused variable x\nSuggestions:\nremove x"

/-- Counterexample to claim C4: parsing the round-trip example does not
yield `summary = "Looks fine."` — the whole line
`Overall Assessment: Looks fine.` is consumed as a section header, so no
summary text accumulates and the 200-character fallback returns the whole
raw text instead. -/
theorem c4_roundTrip_counterexample :
    ¬ (parseReview roundTripInput).summary = "Looks fine." := by decide

/-- Claim C4, amended: parsing the round-trip example yields
`issues = ["unused variable x"]` and `suggestions = ["remove x"]` as
claimed, but `summary` is the entire raw text (the header line is consumed
whole, so the first-200-characters fallback applies). -/
theorem c4_roundTrip_amended :
    (parseReview roundTripInput).summary = roundTripInput ∧
    (parseReview roundTripInput).issues = ["unused variable x"] ∧
    (parseReview roundTripInput).suggestions = ["remove x"] := by decide

/-! ### Lemmas about the response parser -/

theorem parseStep_blank (st : ParseState) (rawLine : List Char)
    (h : (trimStr rawLine).isEmpty = true) : parseStep st rawLine = st := by
  simp [parseStep, h]

theorem scan_content_only (lines : List (List Char))
    (h : ∀ l ∈ lines, classifyLine (trimStr l) = .content ∨ trimStr l = []) :
    ∀ st : ParseState, st.currentSection = .summary →
      (lines.foldl parseStep st).issues = st.issues ∧
      (lines.foldl parseStep st).suggestions = st.suggestions ∧
      (lines.foldl parseStep st).canAutoFix = st.canAutoFix := by
  induction lines with
  | nil => intro st _; exact ⟨rfl, rfl, rfl⟩
  | cons l t ih =>
    intro st hs
    have ht : ∀ x ∈ t, classifyLine (trimStr x) = .content ∨ trimStr x = [] :=
      fun x hx => h x (List.mem_cons_of_mem l hx)
    simp only [List.foldl_cons]
    by_cases he : (trimStr l).isEmpty = true
    · rw [parseStep_blank st l he]
      exact ih ht st hs
    · have hcl : classifyLine (trimStr l) = .content := by
        rcases h l (List.mem_cons_self l t) with h1 | h1
        · exact h1
        · exact absurd (by simp [h1]) he
      have hstep : parseStep st l = { st with summaryParts := st.summaryParts ++ [trimStr l] } := by
        simp [parseStep, he, hcl, hs]
      rw [hstep]
      have := ih ht { st with summaryParts := st.summaryParts ++ [trimStr l] } (by simpa using hs)
      simpa using this

/-- Entries the parser accumulates are always trimmed, non-blank,
content-classified lines. -/
def contentEntry (l : List Char) : Prop := classifyLine l = .content ∧ l ≠ []

theorem parseStep_entries (st : ParseState) (rawLine : List Char)
    (hi : ∀ l ∈ st.issues, contentEntry l)
    (hsu : ∀ l ∈ st.suggestions, contentEntry l)
    (hsp : ∀ l ∈ st.summaryParts, contentEntry l) :
    (∀ l ∈ (parseStep st rawLine).issues, contentEntry l) ∧
    (∀ l ∈ (parseStep st rawLine).suggestions, contentEntry l) ∧
    (∀ l ∈ (parseStep st rawLine).summaryParts, contentEntry l) := by
  by_cases he : (trimStr rawLine).isEmpty = true
  · rw [parseStep_blank st rawLine he]
    exact ⟨hi, hsu, hsp⟩
  · have hne : trimStr rawLine ≠ [] := by
      intro h0
      exact he (by simp [h0])
    cases hcl : classifyLine (trimStr rawLine) with
    | header sec =>
      simp only [parseStep, he, hcl, if_false]
      exact ⟨hi, hsu, hsp⟩
    | autoFixMarker affirmative =>
      cases affirmative <;> simp only [parseStep, he, hcl, if_false, if_true] <;>
        exact ⟨hi, hsu, hsp⟩
    | content =>
      cases hcs : st.currentSection with
      | summary =>
        simp only [parseStep, he, hcl, hcs, if_false]
        refine ⟨hi, hsu, ?_⟩
        intro l hl
        rcases List.mem_append.mp hl with h1 | h1
        · exact hsp l h1
        · rcases List.mem_singleton.mp h1 with rfl
          exact ⟨hcl, hne⟩
      | issues =>
        simp only [parseStep, he, hcl, hcs, if_false]
        refine ⟨?_, hsu, hsp⟩
        intro l hl
        rcases List.mem_append.mp hl with h1 | h1
        · exact hi l h1
        · rcases List.mem_singleton.mp h1 with rfl
          exact ⟨hcl, hne⟩
      | suggestions =>
        simp only [parseStep, he, hcl, hcs, if_false]
        refine ⟨hi, ?_, hsp⟩
        intro l hl
        rcases List.mem_append.mp hl with h1 | h1
        · exact hsu l h1
        · rcases List.mem_singleton.mp h1 with rfl
          exact ⟨hcl, hne⟩

theorem scan_entries (lines : List (List Char)) :
    ∀ st : ParseState,
      (∀ l ∈ st.issues, contentEntry l) →
      (∀ l ∈ st.suggestions, contentEntry l) →
      (∀ l ∈ st.summaryParts, contentEntry l) →
      (∀ l ∈ (lines.foldl parseStep st).issues, contentEntry l) ∧
      (∀ l ∈ (lines.foldl parseStep st).suggestions, contentEntry l) ∧
      (∀ l ∈ (lines.foldl parseStep st).summaryParts, contentEntry l) := by
  induction lines with
  | nil => intro st hi hsu hsp; exact ⟨hi, hsu, hsp⟩
  | cons l t ih =>
    intro st hi hsu hsp
    simp only [List.foldl_cons]
    obtain ⟨h1, h2, h3⟩ := parseStep_entries st l hi hsu hsp
    exact ih (parseStep st l) h1 h2 h3

/-- Input of the C9 counterexample. -/
def c9Input : String := "Issues:\nx\n"

/-- Counterexample to claim C9's fallback clause: on this input no summary
text is accumulated, yet the returned summary is not the first 200
characters of the raw text — the fallback trims them (the raw text ends in
a newline that the summary lacks). -/
theorem c9_fallback_counterexample :
    (parseReviewScan c9Input.data).summaryParts = [] ∧
    ¬ (parseReview c9Input).summary = String.mk (c9Input.data.take 200) := by decide

/-- Claim C9, amended: `parseReview` is total — every input yields a
`Review` carrying the input as `rawText`; when no line matches a heading
the text is filed wholly under summary (issues and suggestions stay empty
and no auto-fix marker fires); and whenever no summary text was
accumulated, the returned summary is the first 200 characters of the raw
text trimmed of surrounding whitespace. -/
theorem c9_parse_is_total_amended (s : String) :
    (parseReview s).rawText = s ∧
    ((∀ l ∈ splitLines s.data, classifyLine (trimStr l) = .content ∨ trimStr l = []) →
      (parseReview s).issues = [] ∧ (parseReview s).suggestions = [] ∧
      (parseReview s).canAutoFix = false) ∧
    ((parseReviewScan s.data).summaryParts = [] →
      (parseReview s).summary = String.mk (trimStr (s.data.take 200))) := by
  refine ⟨rfl, ?_, ?_⟩
  · intro h
    obtain ⟨h1, h2, h3⟩ := scan_content_only (splitLines s.data) h initParseState rfl
    refine ⟨?_, ?_, ?_⟩
    · show ((parseReviewScan s.data).issues.map String.mk) = []
      rw [show parseReviewScan s.data = (splitLines s.data).foldl parseStep initParseState
        from rfl, h1]
      rfl
    · show ((parseReviewScan s.data).suggestions.map String.mk) = []
      rw [show parseReviewScan s.data = (splitLines s.data).foldl parseStep initParseState
        from rfl, h2]
      rfl
    · show (parseReviewScan s.data).canAutoFix = false
      rw [show parseReviewScan s.data = (splitLines s.data).foldl parseStep initParseState
        from rfl, h3]
      rfl
  · intro h
    show String.mk
        (if (trimStr (joinSp (parseReviewScan s.data).summaryParts)).isEmpty then
          trimStr (s.data.take 200)
        else trimStr (joinSp (parseReviewScan s.data).summaryParts)) =
      String.mk (trimStr (s.data.take 200))
    rw [h]
    rfl

/-- Witness for C9: the empty input discharges both hypotheses — the
review degrades to an all-summary (here empty) record. -/
theorem c9_parse_is_total_amended_witness :
    (parseReview "").rawText = "" ∧ (parseReview "").issues = [] ∧
    (parseReview "").summary = String.mk (trimStr ("".data.take 200)) := by
  have h := c9_parse_is_total_amended ""
  exact ⟨h.1, (h.2.1 (by decide)).1, h.2.2 (by decide)⟩

/-- Input of the C10 counterexample. -/
def c10Input : String := "Suggestions:"

/-- Counterexample to claim C10: the line `Suggestions:` is consumed as a
section header, yet it does appear in the returned review's summary field,
because with nothing accumulated the 200-character fallback returns the
raw text — which is that very line. -/
theorem c10_header_in_summary_counterexample :
    classifyLine (trimStr c10Input.data) = .header .suggestions ∧
    (parseReview c10Input).summary = c10Input := by decide

/-- Claim C10, amended: every line whose lowercased trimmed text matches
the header or auto-fix vocabulary is consumed — it is never an element of
the accumulated issues, suggestions, or summary lines (each accumulated
entry classifies as content), and a header line switches the current
section for subsequent lines; a consumed line can still reach the summary
field, but only through the first-200-characters fallback when no summary
text was accumulated. -/
theorem c10_header_lines_consumed_amended (s : String) :
    (∀ l ∈ (parseReviewScan s.data).issues, classifyLine l = .content ∧ l ≠ []) ∧
    (∀ l ∈ (parseReviewScan s.data).suggestions, classifyLine l = .content ∧ l ≠ []) ∧
    (∀ l ∈ (parseReviewScan s.data).summaryParts, classifyLine l = .content ∧ l ≠ []) ∧
    (∀ (st : ParseState) (line : List Char) (sec : ReviewSection),
      classifyLine (trimStr line) = .header sec →
      (parseStep st line).currentSection = sec) := by
  obtain ⟨h1, h2, h3⟩ := scan_entries (splitLines s.data) initParseState
    (by intro l hl; cases hl) (by intro l hl; cases hl) (by intro l hl; cases hl)
  refine ⟨h1, h2, h3, ?_⟩
  intro st line sec hcl
  have hne : (trimStr line).isEmpty = false := by
    cases he : (trimStr line).isEmpty
    · rfl
    · have : trimStr line = [] := by
        cases hl : trimStr line
        · rfl
        · rw [hl] at he; cases he
      rw [this] at hcl
      cases hcl
  simp [parseStep, hne, hcl]

/-- Witness for C10: on `Issues:\nfoo`, the accumulated issue entry `foo`
is a non-blank content line (and, by `decide`, really is accumulated). -/
theorem c10_header_lines_consumed_amended_witness :
    (classifyLine "foo".data = .content ∧ "foo".data ≠ []) ∧
    "foo".data ∈ (parseReviewScan "Issues:\nfoo".data).issues :=
  ⟨(c10_header_lines_consumed_amended "Issues:\nfoo").1 "foo".data (by decide), by decide⟩

/-! ### Lemmas about the batch orchestrator -/

theorem runBatchAux_log_mono (total : Nat) (cT cS : Nat → Bool) :
    ∀ (files : List FileSpec) (i : Nat) (st : BatchState) (x : String),
      x ∈ st.log → x ∈ (runBatchAux total cT cS files i st).log := by
  intro files
  induction files with
  | nil => intro i st x hx; exact hx
  | cons f rest ih =>
    intro i st x hx
    simp only [runBatchAux]
    by_cases hct : cT i = true
    · simp only [hct, if_true]
      exact List.mem_append_left _ hx
    · simp only [hct, if_false]
      cases hopen : f.openResult with
      | error e =>
        exact ih (i + 1) _ x (List.mem_append_left _ hx)
      | ok code =>
        by_cases hcs : cS i = true
        · simp only [hcs, if_true]
          exact List.mem_append_left _ (List.mem_append_left _ hx)
        · simp only [hcs, if_false]
          cases hrev : f.reviewResult with
          | error e =>
            exact ih (i + 1) _ x
              (List.mem_append_left _ (List.mem_append_left _ hx))
          | ok review =>
            exact ih (i + 1) _ x
              (List.mem_append_left _ (List.mem_append_left _
                (List.mem_append_left _ (List.mem_append_left _ hx))))

theorem runBatchAux_count_nocancel (total : Nat) (cT cS : Nat → Bool)
    (hnc : ∀ j, cT j = false ∧ cS j = false) :
    ∀ (files : List FileSpec) (i : Nat) (st : BatchState),
      (runBatchAux total cT cS files i st).reviewedCount =
        st.reviewedCount +
          (files.filter fun f => f.openResult.isOk && f.reviewResult.isOk).length := by
  intro files
  induction files with
  | nil => intro i st; simp [runBatchAux]
  | cons f rest ih =>
    intro i st
    simp only [runBatchAux, (hnc i).1, if_false, Bool.false_eq_true]
    cases hopen : f.openResult with
    | error e =>
      rw [ih (i + 1) _]
      simp [List.filter_cons, hopen, Except.isOk, Except.toBool]
    | ok code =>
      simp only [(hnc i).2, if_false, Bool.false_eq_true]
      cases hrev : f.reviewResult with
      | error e =>
        rw [ih (i + 1) _]
        simp [List.filter_cons, hopen, hrev, Except.isOk, Except.toBool]
      | ok review =>
        rw [ih (i + 1) _]
        simp only [List.filter_cons, hopen, hrev, Except.isOk, Except.toBool]
        simp
        omega

theorem runBatchAux_error_logged (total : Nat) (cT cS : Nat → Bool)
    (hnc : ∀ j, cT j = false ∧ cS j = false) :
    ∀ (files : List FileSpec) (i : Nat) (st : BatchState) (f : FileSpec) (e : String),
      f ∈ files →
      (f.openResult = .error e ∨ (f.openResult.isOk = true ∧ f.reviewResult = .error e)) →
      "❌ Error reviewing file: " ++ e ∈ (runBatchAux total cT cS files i st).log := by
  intro files
  induction files with
  | nil => intro i st f e hf _; cases hf
  | cons g rest ih =>
    intro i st f e hf he
    rcases List.mem_cons.mp hf with rfl | hf'
    · -- the faulty file is at the head: the catch logs the message here
      simp only [runBatchAux, (hnc i).1, if_false, Bool.false_eq_true]
      rcases he with hopen | ⟨hok, hrev⟩
      · rw [hopen]
        refine runBatchAux_log_mono total cT cS rest (i + 1) _ _ ?_
        simp
      · obtain ⟨code, hopen⟩ : ∃ c, f.openResult = .ok c := by
          cases ho : f.openResult
          · rw [ho] at hok; simp [Except.isOk, Except.toBool] at hok
          · exact ⟨_, rfl⟩
        rw [hopen]
        simp only [(hnc i).2, if_false, Bool.false_eq_true]
        rw [hrev]
        refine runBatchAux_log_mono total cT cS rest (i + 1) _ _ ?_
        simp
    · -- the faulty file is further on: recurse through whatever the head does
      simp only [runBatchAux, (hnc i).1, if_false, Bool.false_eq_true]
      cases hopen : g.openResult with
      | error e' => exact ih (i + 1) _ f e hf' he
      | ok code =>
        simp only [(hnc i).2, if_false, Bool.false_eq_true]
        cases hrev : g.reviewResult with
        | error e' => exact ih (i + 1) _ f e hf' he
        | ok review => exact ih (i + 1) _ f e hf' he

/-- The state after one fully successful iteration of the loop (no
cancellation, open and review both succeed): header and report lines
logged, the model call recorded, the apply block run, and the count
incremented. -/
def successState (total : Nat) (f : FileSpec) (review : Review) (i : Nat)
    (st : BatchState) : BatchState :=
  { reviewedCount := st.reviewedCount + 1
    applyAll := (applyBlock f review st.applyAll).1
    log :=
      ((st.log ++
        ["\n📁 File " ++ toString (i + 1) ++ "/" ++ toString total ++ ": " ++
          basenameOf f.path, dashSep]) ++ [review.summary] ++ suggestionLines review) ++
        (applyBlock f review st.applyAll).2
    modelCalls := st.modelCalls ++ [i] }

theorem runBatchAux_cons_success (total : Nat) (cT cS : Nat → Bool) (f : FileSpec)
    (rest : List FileSpec) (i : Nat) (st : BatchState) (code : String) (review : Review)
    (hct0 : cT i = false) (hopen : f.openResult = .ok code) (hcs0 : cS i = false)
    (hrev : f.reviewResult = .ok review) :
    runBatchAux total cT cS (f :: rest) i st =
      runBatchAux total cT cS rest (i + 1) (successState total f review i st) := by
  simp only [runBatchAux, hct0, hopen, hcs0, hrev, Bool.false_eq_true, if_false]
  rfl

theorem runBatchAux_cancelTop (total : Nat) (cT cS : Nat → Bool) :
    ∀ (k : Nat) (files : List FileSpec) (i : Nat) (st : BatchState),
      k < files.length →
      (∀ g ∈ files.take k, g.openResult.isOk = true ∧ g.reviewResult.isOk = true) →
      (∀ j, j < k → cT (i + j) = false ∧ cS (i + j) = false) →
      cT (i + k) = true →
      (runBatchAux total cT cS files i st).reviewedCount = st.reviewedCount + k ∧
      (runBatchAux total cT cS files i st).modelCalls = st.modelCalls ++ List.range' i k ∧
      "\n⚠️ Review cancelled by user." ∈ (runBatchAux total cT cS files i st).log := by
  intro k
  induction k with
  | zero =>
    intro files i st hk _ _ hct
    cases files with
    | nil => simp at hk
    | cons f rest =>
      have hct0 : cT i = true := by simpa using hct
      simp [runBatchAux, hct0, List.range']
  | succ k ih =>
    intro files i st hk hpre hnc hct
    cases files with
    | nil => simp at hk
    | cons f rest =>
      have h0 := hpre f (by simp [List.take_succ_cons])
      have hct0 : cT i = false := by
        have := (hnc 0 (by omega)).1
        simpa using this
      have hcs0 : cS i = false := by
        have := (hnc 0 (by omega)).2
        simpa using this
      obtain ⟨code, hopen⟩ : ∃ c, f.openResult = .ok c := by
        cases ho : f.openResult
        · rw [ho] at h0; simp [Except.isOk, Except.toBool] at h0
        · exact ⟨_, rfl⟩
      obtain ⟨review, hrev⟩ : ∃ r, f.reviewResult = .ok r := by
        cases hr : f.reviewResult
        · rw [hr] at h0; simp [Except.isOk, Except.toBool] at h0
        · exact ⟨_, rfl⟩
      rw [runBatchAux_cons_success total cT cS f rest i st code review hct0 hopen hcs0 hrev]
      have hrest := ih rest (i + 1) (successState total f review i st)
        (by simpa using hk)
        (by
          intro g hg
          exact hpre g (by simpa [List.take_succ_cons] using Or.inr hg))
        (by
          intro j hj
          have e : i + 1 + j = i + (j + 1) := by omega
          rw [e]
          exact hnc (j + 1) (by omega))
        (by
          have e : i + 1 + k = i + (k + 1) := by omega
          rw [e]
          exact hct)
      refine ⟨?_, ?_, hrest.2.2⟩
      · rw [hrest.1]
        show st.reviewedCount + 1 + k = st.reviewedCount + (k + 1)
        omega
      · rw [hrest.2.1]
        show st.modelCalls ++ [i] ++ List.range' (i + 1) k = st.modelCalls ++ List.range' i (k + 1)
        rw [show List.range' i (k + 1) = i :: List.range' (i + 1) k from rfl]
        simp

/-- Claim C5 (indices here are 0-based: cancellation observed at the check
for file index `k` corresponds to the claim's "before file k+1"): if the
cancellation token is set when the loop-top check of iteration `k` runs,
and the earlier iterations ran to completion, then the loop breaks at `k`,
`reviewCode` is invoked exactly for files `0,…,k-1` (`modelCalls = range k`;
tool calls only happen inside `reviewCode`, so none occur either), the
completed count stays `k`, and the final report announces `k` reviewed
files. The embedding checks cancellation both at the loop top
(`cancelTop`, before opening the file) and again before each send to the
API (`cancelSend`). -/
theorem c5_cancellation_halts_batch (files : List FileSpec) (cT cS : Nat → Bool) (k : Nat)
    (hk : k < files.length)
    (hpre : ∀ g ∈ files.take k, g.openResult.isOk = true ∧ g.reviewResult.isOk = true)
    (hnc : ∀ j, j < k → cT j = false ∧ cS j = false)
    (hct : cT k = true) :
    (runBatch files cT cS).reviewedCount = k ∧
    (runBatch files cT cS).modelCalls = List.range k ∧
    "\n⚠️ Review cancelled by user." ∈ (runBatch files cT cS).log ∧
    "✅ Review complete! Reviewed " ++ toString k ++ " files." ∈ (runBatch files cT cS).log := by
  have h := runBatchAux_cancelTop files.length cT cS k files 0
    { reviewedCount := 0, applyAll := false, log := [], modelCalls := [] }
    hk hpre (by intro j hj; simpa using hnc j hj) (by simpa using hct)
  have hcount : (runBatchAux files.length cT cS files 0
      { reviewedCount := 0, applyAll := false, log := [], modelCalls := [] }).reviewedCount
      = k := by
    rw [h.1]
    simp
  refine ⟨hcount, ?_, ?_, ?_⟩
  · show (runBatchAux files.length cT cS files 0 _).modelCalls = List.range k
    rw [h.2.1]
    simp [List.range_eq_range']
  · exact List.mem_append_left _ h.2.2
  · show _ ∈ (runBatchAux files.length cT cS files 0 _).log ++
      ["\n" ++ eqSep,
       "✅ Review complete! Reviewed " ++
        toString (runBatchAux files.length cT cS files 0
          { reviewedCount := 0, applyAll := false, log := [], modelCalls := [] }).reviewedCount
        ++ " files.",
       eqSep]
    rw [hcount]
    simp

/-- A review with nothing to fix, used to build concrete batches. -/
def okReview : Review :=
  { summary := "ok", issues := [], suggestions := [], canAutoFix := false, rawText := "ok" }

/-- A file whose open and review both succeed. -/
def okFile (p : String) : FileSpec :=
  { path := p, openResult := .ok "code", reviewResult := .ok okReview,
    choice := none, applyResult := .ok () }

/-- The 5-file batch of the spec's cancellation example. -/
def c5Files : List FileSpec :=
  [okFile "f1.js", okFile "f2.js", okFile "f3.js", okFile "f4.js", okFile "f5.js"]

/-- Cancellation that is signalled from the second iteration on. -/
def c5Cancel : Nat → Bool := fun j => decide (1 ≤ j)

/-- Witness for C5: cancelling before file 2 of the 5-file batch leaves 1
completed, one model call, and the cancel and final reports logged. -/
theorem c5_cancellation_halts_batch_witness :
    (runBatch c5Files c5Cancel (fun _ => false)).reviewedCount = 1 ∧
    (runBatch c5Files c5Cancel (fun _ => false)).modelCalls = List.range 1 ∧
    "\n⚠️ Review cancelled by user." ∈ (runBatch c5Files c5Cancel (fun _ => false)).log ∧
    "✅ Review complete! Reviewed " ++ toString 1 ++ " files."
      ∈ (runBatch c5Files c5Cancel (fun _ => false)).log :=
  c5_cancellation_halts_batch c5Files c5Cancel (fun _ => false) 1 (by decide)
    (by decide) (by decide) (by decide)

/-- The 3-file batch with a read failure in the middle. -/
def c6Files : List FileSpec :=
  [okFile "a.js",
   { path := "b.js", openResult := .error "boom", reviewResult := .ok okReview,
     choice := none, applyResult := .ok () },
   okFile "c.js"]

/-- Counterexample to claim C6's logging clause: in the 3-file batch where
file 2 (`b.js`) throws on read, the error is caught and the batch
continues (`reviewedCount = 2`), but no logged line names `b.js` — the
catch logs only `❌ Error reviewing file: ${error.message}`, and the
per-file header for `b.js` is printed after the open, which threw. -/
theorem c6_no_file_identity_counterexample :
    ((runBatch c6Files (fun _ => false) (fun _ => false)).log.all
      fun entry => !(containsStr entry.data "b.js".data)) = true ∧
    (runBatch c6Files (fun _ => false) (fun _ => false)).reviewedCount = 2 := by decide

/-- Claim C6, amended: a per-file exception (open/read failure, or model
failure) is caught inside the loop body and logged as
`❌ Error reviewing file: ` followed by the error's message (the file's
identity is not part of the logged line), and the loop continues:
with no cancellation, `reviewedCount` is exactly the number of files whose
open and review both succeed. -/
theorem c6_bad_file_skips_and_continues (files : List FileSpec) (cT cS : Nat → Bool)
    (hnc : ∀ j, cT j = false ∧ cS j = false) :
    (runBatch files cT cS).reviewedCount =
      (files.filter fun f => f.openResult.isOk && f.reviewResult.isOk).length ∧
    (∀ f ∈ files, ∀ e,
      (f.openResult = .error e ∨ (f.openResult.isOk = true ∧ f.reviewResult = .error e)) →
      "❌ Error reviewing file: " ++ e ∈ (runBatch files cT cS).log) := by
  constructor
  · show (runBatchAux files.length cT cS files 0 _).reviewedCount = _
    rw [runBatchAux_count_nocancel files.length cT cS hnc files 0]
    simp
  · intro f hf e he
    exact List.mem_append_left _
      (runBatchAux_error_logged files.length cT cS hnc files 0 _ f e hf he)

/-- Witness for C6: the 3-file batch completes files 1 and 3
(`reviewedCount = 2`, model calls exactly for indices 0 and 2) and logs
the caught error's message. -/
theorem c6_bad_file_skips_and_continues_witness :
    (runBatch c6Files (fun _ => false) (fun _ => false)).reviewedCount = 2 ∧
    (runBatch c6Files (fun _ => false) (fun _ => false)).modelCalls = [0, 2] ∧
    "❌ Error reviewing file: boom" ∈ (runBatch c6Files (fun _ => false) (fun _ => false)).log := by
  have h := c6_bad_file_skips_and_continues c6Files (fun _ => false) (fun _ => false)
    (fun _ => ⟨rfl, rfl⟩)
  refine ⟨h.1.trans (by decide), by decide, ?_⟩
  exact h.2
    { path := "b.js", openResult := .error "boom", reviewResult := .ok okReview,
      choice := none, applyResult := .ok () }
    (by decide) "boom" (Or.inl rfl)

/-- Claim C7: `generateFixedCode`'s post-processing strips every fence
marker and trims the result — on the spec's example it returns exactly
`const x=1;`, and for every input text the returned string contains no
three consecutive backticks. -/
theorem c7_fence_stripping :
    generateFixedCode "```js\nconst x=1;\n```" = "const x=1;" ∧
    ∀ text : String, hasTripleTick (generateFixedCode text).data = false := by
  constructor
  · simp only [generateFixedCode]
    rw [show stripFenceLang "```js\nconst x=1;\n```".data = "const x=1;\n".data by
      simp [stripFenceLang, dropLangTag, List.dropWhile, isAsciiLetter]]
    decide
  · intro text
    exact trimStr_noTriple _ (stripTriple_noTriple (stripFenceLang text.data))

/-- The directory tree of the spec's `find_file` example. -/
def c8Tree : List FsEntry :=
  [.file "a.JSON", .file "a.jsonc", .dir "sub" [.file "b.json"]]

/-- A file system rooted at `.` with that tree. -/
def c8Fs : FileSystem :=
  { readResult := fun _ => .error "ENOENT"
    readdirResult := fun _ => .error "ENOENT"
    findRoot := fun d => if d = "." then c8Tree else [] }

/-- Claim C8: `findFile` matches its pattern as a restricted glob —
anchored to the whole basename, case-insensitive, `*`/`?` the only
wildcards — over the recursive walk: `*.json` against the tree containing
`a.JSON`, `a.jsonc` and `sub/b.json` matches exactly `a.JSON` (case folds)
and `sub/b.json` (found recursively), and not `a.jsonc` (anchoring). -/
theorem c8_findFile_glob :
    findFile c8Fs "*.json" none = .findOk "*.json" ["a.JSON", "sub/b.json"] := by
  simp [findFile, c8Fs, c8Tree, walkEntries, walkOne, heavyDirName, joinPath, basenameOf,
    basenameAux, globMatch, isDotChar, asciiLower, lowerStr, containsStr, startsWithStr]

end CodeReviewer
